import Mathlib

/-!
Shallow embedding of the Karnaugh-map solver (`karnaugh.h` / `karnaugh.cpp`).

C++ machine integers (`int`) are modelled as `Int` (no overflow occurs: all
coordinates and sizes stay below 17), `std::map<char, T>` as a strictly-sorted
association list `List (Char × T)`, `std::vector` as `List`, and fallible code
(out-of-range access, exceptions) via `Option`.
-/

namespace karnaugh

/-- `ivec2` from `karnaugh.h`: a 2-integer vector. -/
structure ivec2 where
  x : Int
  y : Int
deriving DecidableEq, Repr

/-- `kgroup` from `karnaugh.h`: a rectangle given by start point and size. -/
structure kgroup where
  start : ivec2
  size : ivec2
deriving DecidableEq, Repr

/-- Dummy group used only for the (never taken) out-of-range branch of
list indexing in the filter passes. -/
def dgroup : kgroup := ⟨⟨0, 0⟩, ⟨0, 0⟩⟩

/-- `kgroup::is_in`: whether `a` lies inside `b` (same inequalities, same
order, as the C++ body). -/
def kgroup.is_in (a b : kgroup) : Bool :=
  decide (a.start.x ≥ b.start.x ∧
          a.start.y ≥ b.start.y ∧
          a.start.x + a.size.x ≤ b.start.x + b.size.x ∧
          a.start.y + a.size.y ≤ b.start.y + b.size.y)

/-- The C++ loops `for (x = 0; x < n; ++x)` over `int`: the list
`[0, 1, ..., n-1]`, empty when `n ≤ 0`. -/
def intRange (n : Int) : List Int :=
  (List.range n.toNat).map Int.ofNat

/-- `kgroup::to_points`: all covered points, x-major then y, exactly the
double loop of the C++ body. -/
def kgroup.to_points (g : kgroup) : List ivec2 :=
  (intRange g.size.x).flatMap (fun dx =>
    (intRange g.size.y).map (fun dy => ⟨g.start.x + dx, g.start.y + dy⟩))

/-- `karnaugh::utils::patterns`: the nine allowed group shapes. -/
def patterns : List ivec2 :=
  [⟨1, 1⟩, ⟨2, 1⟩, ⟨1, 2⟩, ⟨4, 1⟩, ⟨1, 4⟩, ⟨2, 2⟩, ⟨4, 2⟩, ⟨2, 4⟩, ⟨4, 4⟩]

/-- `utils::generate_order`: the hardcoded Gray-code-like cell orderings. -/
def generate_order : Nat → List (List Int)
  | 1 => [[0], [1]]
  | 2 => [[0, 0], [0, 1], [1, 1], [1, 0]]
  | _ => []

/-- `std::map<char, α>` modelled as an association list sorted strictly by key.
`mapEmplace` is `std::map::emplace`: inserts `(k, v)` unless `k` is present. -/
def mapEmplace {α : Type} : List (Char × α) → Char → α → List (Char × α)
  | [], k, v => [(k, v)]
  | (k', v') :: rest, k, v =>
    if k < k' then (k, v) :: (k', v') :: rest
    else if k = k' then (k', v') :: rest
    else (k', v') :: mapEmplace rest k v

/-- `temp.at(k) = v` guarded by `try`/`catch`: update the value at `k` when the
key is present, otherwise leave the map unchanged (the exception is swallowed). -/
def mapAssign {α : Type} : List (Char × α) → Char → α → List (Char × α)
  | [], _, _ => []
  | (k', v') :: rest, k, v =>
    if k = k' then (k, v) :: rest else (k', v') :: mapAssign rest k v

/-- `std::map::at` guarded by `try`/`catch`, as a total lookup. -/
def mapFind? {α : Type} (m : List (Char × α)) (k : Char) : Option α :=
  (m.find? (fun p => p.1 == k)).map (fun p => p.2)

/-- `utils::map_from_keys`: an association list with the given keys, every
value the default `d` (`operator[]` value-initializes missing entries). -/
def mapFromKeys {α : Type} (d : α) (keys : List Char) : List (Char × α) :=
  keys.foldl (fun m k => mapEmplace m k d) []

/-- `k_var_result` from `karnaugh.h`. -/
inductive k_var_result : Type
  | k_vtrue
  | k_vfalse
  | k_vnull
deriving DecidableEq, Repr

/-- The variable map of one axis: `var_map_t = std::map<char, bool>`. -/
abbrev var_map_t : Type := List (Char × Bool)

/-- `var_pmap_t = std::pair<var_map_t, int>`: axis assignment plus its
coordinate along that axis. -/
abbrev var_pmap_t : Type := var_map_t × Int

/-- `var_coord_t = std::pair<var_pmap_t, var_pmap_t>`. -/
abbrev var_coord_t : Type := var_pmap_t × var_pmap_t

/-- `kmap` from `karnaugh.h`: variable lists plus the internal cell list. -/
structure kmap where
  unordered_variables : List Char
  variables_pair : List Char × List Char
  internal_map : List (var_coord_t × Bool)

/-- The default-constructed `kmap` (what the constructor leaves behind when the
input path does not exist). -/
def kmap.empty : kmap := ⟨[], ([], []), []⟩

/-- `kmap::size_x`: `1 << variables.first.size()`. -/
def kmap.size_x (m : kmap) : Nat := 2 ^ m.variables_pair.1.length

/-- `kmap::size_y`: `1 << variables.second.size()`. -/
def kmap.size_y (m : kmap) : Nat := 2 ^ m.variables_pair.2.length

/-- `kmap::size`. -/
def kmap.size (m : kmap) : Nat := m.size_x * m.size_y

/-- `kmap::value_for`: first cell of `internal_map` whose coordinates are
`(x, y)`; `nullptr` becomes `none`. -/
def kmap.value_for (m : kmap) (x y : Int) : Option Bool :=
  (m.internal_map.find? (fun e => e.1.1.2 == x && e.1.2.2 == y)).map (fun e => e.2)

/-- `kmap::var_coord_for`: like `value_for` but returning the coordinate pair. -/
def kmap.var_coord_for (m : kmap) (x y : Int) : Option var_coord_t :=
  (m.internal_map.find? (fun e => e.1.1.2 == x && e.1.2.2 == y)).map (fun e => e.1)

/-- `kmap::load_variables` applied to the tokenized first line.  The C++ loop
puts index `i` into the first (horizontal) axis map iff
`s % 2 == 0 ? i < s/2 : i <= s/2`, i.e. iff `i < h` below, so the two halves
are exactly `take h` and `drop h`; each half is accumulated with
`std::map::emplace` and then read back in (sorted) key order. -/
def kmap.load_variables (tvars : List Char) : List Char × List Char :=
  let s := tvars.length
  let h := if s % 2 == 0 then s / 2 else s / 2 + 1
  let tfirst := (tvars.take h).foldl (fun m c => mapEmplace m c false) []
  let tsecond := (tvars.drop h).foldl (fun m c => mapEmplace m c false) []
  (tfirst.map Prod.fst, tsecond.map Prod.fst)

/-- Position of the first occurrence of `cur` in `order`, defaulting to 0
(the C++ `position` variable). -/
def findPositionAux (cur : List Int) : List (List Int) → Nat → Option Nat
  | [], _ => none
  | o :: rest, i => if o = cur then some i else findPositionAux cur rest (i + 1)

/-- The `position` computation of `kmap::load_values::process`. -/
def findPosition (order : List (List Int)) (cur : List Int) : Int :=
  match findPositionAux cur order 0 with
  | some i => (i : Int)
  | none => 0

/-- The assignment loop of `kmap::load_values::process`:
`temp.at(unordered_variables.at(i)) = vars.at(i)` for each token index, with
both out-of-range accesses and missing keys swallowed by `try`/`catch`
(`vars.at(i)` never throws since `i < vars.size()`). -/
def assign_row (m : kmap) (temp : var_map_t) (vars : List Int) : var_map_t :=
  (List.range vars.length).foldl
    (fun t i =>
      match m.unordered_variables[i]? with
      | some c => mapAssign t c (decide (vars.getD i 0 ≠ 0))
      | none => t)
    temp

/-- `process` inside `kmap::load_values`: builds one axis assignment and its
coordinate. -/
def kmap.process (m : kmap) (list : List Char) (vars : List Int) : var_pmap_t :=
  let temp := assign_row m (mapFromKeys false list) vars
  let order := generate_order temp.length
  let current := temp.map (fun p => if p.2 then (1 : Int) else 0)
  (temp, findPosition order current)

/-- `kmap::load_values` applied to the tokenized row.  `result.back()` on an
empty token vector is undefined behaviour (`std::vector::back` on an empty
vector), modelled as `none`. -/
def kmap.load_values (m : kmap) (tokens : List Int) : Option (var_coord_t × Bool) :=
  match tokens.getLast? with
  | none => none
  | some last =>
    some ((m.process m.variables_pair.1 tokens, m.process m.variables_pair.2 tokens),
          decide (last ≠ 0))

/-- The `kmap` constructor, over the tokenized file contents: first line of
variable names, then one token row per line.  A missing file yields the
default-constructed map. -/
def kmap.construct (fileExists : Bool) (varLine : List Char)
    (rows : List (List Int)) : Option kmap :=
  if !fileExists then some kmap.empty
  else
    let vars := kmap.load_variables varLine
    let base : kmap := ⟨varLine, vars, []⟩
    (rows.mapM (fun r => base.load_values r)).map
      (fun cells => ⟨varLine, vars, cells⟩)

/-- `kmap::check_group`: the double loop over the rectangle coincides with
`to_points`; a cell absent from the map never fails the test. -/
def kmap.check_group (m : kmap) (g : kgroup) (v : Bool) : Bool :=
  g.to_points.all (fun p =>
    match m.value_for p.x p.y with
    | some w => w == v
    | none => true)

/-- `kmap::get_all_groups`: every pattern slid over every in-bounds origin,
keeping the groups accepted by `check_group`. -/
def kmap.get_all_groups (m : kmap) (v : Bool) : List kgroup :=
  patterns.flatMap (fun mask =>
    (intRange ((m.size_x : Int) - mask.x + 1)).flatMap (fun x =>
      ((intRange ((m.size_y : Int) - mask.y + 1)).filter (fun y =>
        m.check_group ⟨⟨x, y⟩, mask⟩ v)).map (fun y => ⟨⟨x, y⟩, mask⟩)))

/-- First pass of `kmap::get_filtered_groups`: drop every group that lies
inside a group at a *different* index (`&g != &b` is index inequality). -/
def pass1 (gs : List kgroup) : List kgroup :=
  ((List.range gs.length).filter (fun i =>
    !((List.range gs.length).any (fun j =>
      decide (j ≠ i) && (gs.getD i dgroup).is_in (gs.getD j dgroup))))).map
    (fun i => gs.getD i dgroup)

/-- Second pass of `kmap::get_filtered_groups`: keep a group iff one of its
points lies in no group at a different index. -/
def pass2 (gs : List kgroup) : List kgroup :=
  ((List.range gs.length).filter (fun i =>
    (gs.getD i dgroup).to_points.any (fun gp =>
      !((List.range gs.length).any (fun j =>
        decide (j ≠ i) && (gs.getD j dgroup).to_points.any (fun bp =>
          bp.x == gp.x && bp.y == gp.y)))))).map
    (fun i => gs.getD i dgroup)

/-- `kmap::get_filtered_groups`. -/
def kmap.get_filtered_groups (m : kmap) (v : Bool) : List kgroup :=
  pass2 (pass1 (m.get_all_groups v))

/-- `kmap::coords_from_kgroup`. -/
def kmap.coords_from_kgroup (m : kmap) (g : kgroup) : List var_coord_t :=
  g.to_points.filterMap (fun p => m.var_coord_for p.x p.y)

/-- The inner loop of `kmap::get_formula` for one variable: threads `cvalue`
and `value` through the group's coordinates; `none` is the `is_different`
early exit. -/
def var_scan (m : kmap) (var : Char) :
    List var_coord_t → Option Bool → Option Bool → Option (Option Bool × Option Bool)
  | [], cvalue, value => some (cvalue, value)
  | c :: rest, cvalue, value =>
    let cvalue := match cvalue with
      | none => m.value_for c.1.2 c.2.2
      | some b => some b
    let nvalue : Option Bool := match mapFind? c.2.1 var with
      | some b => some b
      | none => mapFind? c.1.1 var
    match nvalue with
    | none => none
    | some nb =>
      match value with
      | none => var_scan m var rest cvalue (some nb)
      | some vb => if vb == nb then var_scan m var rest cvalue value else none

/-- Classification of one variable for one group (the tail of the
`get_formula` inner loop). -/
def classify_var (m : kmap) (coords : List var_coord_t) (var : Char) : k_var_result :=
  match var_scan m var coords none none with
  | none => k_var_result.k_vnull
  | some (cvalue, value) =>
    match cvalue, value with
    | some cb, some vb =>
      if vb == cb then k_var_result.k_vtrue else k_var_result.k_vfalse
    | _, _ => k_var_result.k_vnull

/-- The per-group term of `kmap::get_formula`: a `std::map<char, k_var_result>`
seeded from the declared variables (value-initialized to the first enumerator
`k_vtrue`) and then assigned for every declared variable. -/
def kmap.term_for_group (m : kmap) (g : kgroup) : List (Char × k_var_result) :=
  let coords := m.coords_from_kgroup g
  m.unordered_variables.foldl
    (fun acc var => mapAssign acc var (classify_var m coords var))
    (mapFromKeys k_var_result.k_vtrue m.unordered_variables)

/-- `kmap::get_formula`. -/
def kmap.get_formula (m : kmap) (v : Bool) : List (List (Char × k_var_result)) :=
  (m.get_filtered_groups v).map (fun g => m.term_for_group g)

/-- The inner string of one term in `kmap::get_formula_string`. -/
def render_term (v : Bool) (t : List (Char × k_var_result)) : String :=
  t.foldl (fun ssn p =>
    let ssn := if ssn ≠ "" ∧ p.2 ≠ k_var_result.k_vnull
      then ssn ++ " " ++ (if !v then "+" else "x") ++ " " else ssn
    let ssn := if p.2 = k_var_result.k_vfalse then ssn ++ "!" else ssn
    if p.2 ≠ k_var_result.k_vnull then ssn ++ p.1.toString else ssn) ""

/-- `kmap::get_formula_string`. -/
def kmap.get_formula_string (m : kmap) (v : Bool) : String :=
  (m.get_formula v).foldl (fun ss t =>
    let ss := if ss ≠ "" then ss ++ " " ++ (if v then "+" else "x") ++ " " else ss
    ss ++ "(" ++ render_term v t ++ ")") ""

end karnaugh

/-! ### Basic lemmas about the geometry and the enumeration -/

namespace karnaugh

lemma mem_intRange {x n : Int} : x ∈ intRange n ↔ 0 ≤ x ∧ x < n := by
  unfold intRange
  simp only [List.mem_map, List.mem_range]
  constructor
  · rintro ⟨k, hk, rfl⟩
    simp only [Int.ofNat_eq_natCast]
    omega
  · rintro ⟨h0, h1⟩
    refine ⟨x.toNat, by omega, ?_⟩
    simp only [Int.ofNat_eq_natCast]
    omega

lemma nodup_intRange {n : Int} : (intRange n).Nodup :=
  List.Nodup.map (fun a b h => by simpa [Int.ofNat_eq_natCast] using h) (List.nodup_range _)

lemma mem_to_points {g : kgroup} {p : ivec2} :
    p ∈ g.to_points ↔
      g.start.x ≤ p.x ∧ p.x < g.start.x + g.size.x ∧
      g.start.y ≤ p.y ∧ p.y < g.start.y + g.size.y := by
  unfold kgroup.to_points
  simp only [List.mem_flatMap, List.mem_map, mem_intRange]
  constructor
  · rintro ⟨dx, ⟨hdx0, hdx1⟩, dy, ⟨hdy0, hdy1⟩, rfl⟩
    dsimp only
    refine ⟨by omega, by omega, by omega, by omega⟩
  · rintro ⟨h1, h2, h3, h4⟩
    refine ⟨p.x - g.start.x, ⟨by omega, by omega⟩,
            p.y - g.start.y, ⟨by omega, by omega⟩, ?_⟩
    cases p
    simp only [ivec2.mk.injEq]
    omega

lemma check_group_eq_true_iff {m : kmap} {g : kgroup} {v : Bool} :
    m.check_group g v = true ↔
      ∀ p ∈ g.to_points, ∀ w, m.value_for p.x p.y = some w → w = v := by
  unfold kmap.check_group
  rw [List.all_eq_true]
  constructor
  · intro h p hp w hw
    have := h p hp
    rw [hw] at this
    simpa using this
  · intro h p hp
    rcases hv : m.value_for p.x p.y with _ | w
    · simp [hv]
    · simp only [hv, beq_iff_eq]
      exact h p hp w hv

lemma mem_get_all_groups {m : kmap} {v : Bool} {g : kgroup} :
    g ∈ m.get_all_groups v ↔
      g.size ∈ patterns ∧
      0 ≤ g.start.x ∧ g.start.x + g.size.x ≤ (m.size_x : Int) ∧
      0 ≤ g.start.y ∧ g.start.y + g.size.y ≤ (m.size_y : Int) ∧
      m.check_group g v = true := by
  unfold kmap.get_all_groups
  simp only [List.mem_flatMap, List.mem_map, List.mem_filter, mem_intRange]
  constructor
  · rintro ⟨mask, hmask, x, ⟨hx0, hx1⟩, y, ⟨⟨hy0, hy1⟩, hcheck⟩, rfl⟩
    dsimp only
    exact ⟨hmask, hx0, by omega, hy0, by omega, hcheck⟩
  · rintro ⟨hmask, hx0, hx1, hy0, hy1, hcheck⟩
    exact ⟨g.size, hmask, g.start.x, ⟨hx0, by omega⟩, g.start.y,
           ⟨⟨hy0, by omega⟩, hcheck⟩, rfl⟩

lemma is_in_iff {a b : kgroup} :
    a.is_in b = true ↔
      (a.start.x ≥ b.start.x ∧ a.start.y ≥ b.start.y ∧
       a.start.x + a.size.x ≤ b.start.x + b.size.x ∧
       a.start.y + a.size.y ≤ b.start.y + b.size.y) := by
  simp [kgroup.is_in]

lemma is_in_refl (a : kgroup) : a.is_in a = true := by
  simp [kgroup.is_in]

lemma to_points_mono {a b : kgroup} {p : ivec2} (hin : a.is_in b = true)
    (hp : p ∈ a.to_points) : p ∈ b.to_points := by
  rw [mem_to_points] at hp ⊢
  have h := is_in_iff.mp hin
  exact ⟨by omega, by omega, by omega, by omega⟩

lemma strict_measure_of_is_in {a b : kgroup} (hin : a.is_in b = true)
    (hne : a ≠ b) : a.size.x + a.size.y < b.size.x + b.size.y := by
  have h := is_in_iff.mp hin
  by_contra hc
  apply hne
  cases a with
  | mk sa za =>
    cases b with
    | mk sb zb =>
      cases sa; cases za; cases sb; cases zb
      simp only [kgroup.mk.injEq, ivec2.mk.injEq] at h hc ⊢
      omega

end karnaugh

/-! ### Membership and pairwise structure of the two filter passes -/

namespace karnaugh

lemma mem_idx_map {l : List kgroup} {q : Nat → Bool} {g : kgroup} :
    g ∈ ((List.range l.length).filter q).map (fun i => l.getD i dgroup) ↔
      ∃ i, i < l.length ∧ q i = true ∧ l.getD i dgroup = g := by
  simp only [List.mem_map, List.mem_filter, List.mem_range]
  constructor
  · rintro ⟨i, ⟨hi, hq⟩, rfl⟩; exact ⟨i, hi, hq, rfl⟩
  · rintro ⟨i, hi, hq, rfl⟩; exact ⟨i, ⟨hi, hq⟩, rfl⟩

lemma idx_keep_iff {n i : Nat} {P : Nat → Bool} :
    (!((List.range n).any (fun j => decide (j ≠ i) && P j))) = true ↔
      ∀ j, j < n → j ≠ i → P j = false := by
  rw [Bool.not_eq_true']
  constructor
  · intro h j hj hne
    cases hP : P j with
    | false => rfl
    | true =>
      exfalso
      have hT : (List.range n).any (fun j => decide (j ≠ i) && P j) = true :=
        List.any_eq_true.mpr ⟨j, List.mem_range.mpr hj, by simp [hne, hP]⟩
      rw [h] at hT
      exact Bool.false_ne_true hT
  · intro h
    cases hcase : (List.range n).any (fun j => decide (j ≠ i) && P j) with
    | false => rfl
    | true =>
      exfalso
      rcases List.any_eq_true.mp hcase with ⟨j, hj, hcond⟩
      rw [Bool.and_eq_true, decide_eq_true_iff] at hcond
      obtain ⟨hne, hP⟩ := hcond
      have := h j (List.mem_range.mp hj) hne
      simp [this] at hP

lemma point_any_iff {l : List ivec2} {p : ivec2} :
    (l.any (fun bp => bp.x == p.x && bp.y == p.y)) = true ↔ p ∈ l := by
  rw [List.any_eq_true]
  constructor
  · rintro ⟨bp, hbp, hcond⟩
    rw [Bool.and_eq_true, beq_iff_eq, beq_iff_eq] at hcond
    have hbpp : bp = p := by
      cases bp; cases p
      simpa only [ivec2.mk.injEq] using hcond
    exact hbpp ▸ hbp
  · intro hp; exact ⟨p, hp, by simp⟩

lemma mem_pass1 {gs : List kgroup} {g : kgroup} :
    g ∈ pass1 gs ↔
      ∃ i, i < gs.length ∧ gs.getD i dgroup = g ∧
        ∀ j, j < gs.length → j ≠ i →
          (gs.getD i dgroup).is_in (gs.getD j dgroup) = false := by
  unfold pass1
  rw [mem_idx_map]
  apply exists_congr; intro i
  constructor
  · rintro ⟨hi, hq, rfl⟩; exact ⟨hi, rfl, idx_keep_iff.mp hq⟩
  · rintro ⟨hi, rfl, hcond⟩; exact ⟨hi, idx_keep_iff.mpr hcond, rfl⟩

lemma pass2_keep_iff {gs : List kgroup} {i : Nat} :
    ((gs.getD i dgroup).to_points.any (fun gp =>
      !((List.range gs.length).any (fun j =>
        decide (j ≠ i) && (gs.getD j dgroup).to_points.any (fun bp =>
          bp.x == gp.x && bp.y == gp.y))))) = true ↔
      ∃ p ∈ (gs.getD i dgroup).to_points,
        ∀ j, j < gs.length → j ≠ i → p ∉ (gs.getD j dgroup).to_points := by
  rw [List.any_eq_true]
  constructor
  · rintro ⟨p, hp, hcond⟩
    refine ⟨p, hp, ?_⟩
    intro j hj hne hmem
    have h := idx_keep_iff.mp hcond j hj hne
    have hT := point_any_iff.mpr hmem
    rw [h] at hT
    exact Bool.false_ne_true hT
  · rintro ⟨p, hp, hcond⟩
    refine ⟨p, hp, idx_keep_iff.mpr ?_⟩
    intro j hj hne
    cases hP : ((gs.getD j dgroup).to_points.any fun bp => bp.x == p.x && bp.y == p.y) with
    | false => rfl
    | true => exact absurd (point_any_iff.mp hP) (hcond j hj hne)

lemma mem_pass2 {gs : List kgroup} {g : kgroup} :
    g ∈ pass2 gs ↔
      ∃ i, i < gs.length ∧ gs.getD i dgroup = g ∧
        ∃ p ∈ g.to_points,
          ∀ j, j < gs.length → j ≠ i → p ∉ (gs.getD j dgroup).to_points := by
  unfold pass2
  rw [mem_idx_map]
  apply exists_congr; intro i
  constructor
  · rintro ⟨hi, hq, rfl⟩; exact ⟨hi, rfl, pass2_keep_iff.mp hq⟩
  · rintro ⟨hi, rfl, hcond⟩; exact ⟨hi, pass2_keep_iff.mpr hcond, rfl⟩

lemma idx_map_pairwise {l : List kgroup} {q : Nat → Bool} {P : kgroup → kgroup → Prop}
    (h : ∀ i j, i < l.length → j < l.length → i ≠ j → q i = true → q j = true →
      P (l.getD i dgroup) (l.getD j dgroup)) :
    (((List.range l.length).filter q).map (fun i => l.getD i dgroup)).Pairwise P := by
  rw [List.pairwise_map]
  have h0 : ((List.range l.length).filter q).Pairwise (· < ·) :=
    List.Pairwise.filter q (List.pairwise_lt_range _)
  refine h0.imp_of_mem ?_
  intro a b ha hb hab
  have ha' := List.mem_filter.mp ha
  have hb' := List.mem_filter.mp hb
  exact h a b (List.mem_range.mp ha'.1) (List.mem_range.mp hb'.1)
    (Nat.ne_of_lt hab) ha'.2 hb'.2

lemma pass1_pairwise (gs : List kgroup) :
    (pass1 gs).Pairwise (fun a b => a.is_in b = false ∧ b.is_in a = false) := by
  unfold pass1
  apply idx_map_pairwise
  intro i j hi hj hij hqi hqj
  exact ⟨idx_keep_iff.mp hqi j hj (Ne.symm hij), idx_keep_iff.mp hqj i hi hij⟩

lemma pass1_indexed (gs : List kgroup) :
    ∀ i j, i < (pass1 gs).length → j < (pass1 gs).length → i ≠ j →
      ((pass1 gs).getD i dgroup).is_in ((pass1 gs).getD j dgroup) = false := by
  have hp := pass1_pairwise gs
  rw [List.pairwise_iff_getElem] at hp
  intro i j hi hj hij
  rw [List.getD_eq_getElem _ _ hi, List.getD_eq_getElem _ _ hj]
  rcases Nat.lt_or_ge i j with hlt | hge
  · exact (hp i j hi hj hlt).1
  · have hlt : j < i := by omega
    exact (hp j i hj hi hlt).2

lemma filtered_pairwise (gs : List kgroup) :
    (pass2 (pass1 gs)).Pairwise (fun a b => a.is_in b = false ∧ b.is_in a = false) := by
  unfold pass2
  apply idx_map_pairwise
  intro i j hi hj hij _ _
  exact ⟨pass1_indexed gs i j hi hj hij, pass1_indexed gs j i hj hi (Ne.symm hij)⟩

lemma pass1_survivor {gs : List kgroup} {g : kgroup} (hg : g ∈ pass1 gs) :
    g ∈ gs ∧ ∀ b ∈ gs, g.is_in b = true → b = g := by
  rcases mem_pass1.mp hg with ⟨i, hi, rfl, hcond⟩
  rw [List.getD_eq_getElem _ _ hi]
  constructor
  · exact List.getElem_mem hi
  · intro b hb hin
    rcases List.mem_iff_getElem.mp hb with ⟨j, hj, rfl⟩
    by_cases hij : j = i
    · subst hij; rfl
    · exfalso
      have := hcond j hj hij
      rw [List.getD_eq_getElem _ _ hi, List.getD_eq_getElem _ _ hj] at this
      simp [this] at hin

end karnaugh

/-! ### The enumeration has no duplicate groups; pass 1 keeps a maximal cover -/

namespace karnaugh

lemma nodup_get_all_groups (m : kmap) (v : Bool) : (m.get_all_groups v).Nodup := by
  unfold kmap.get_all_groups
  rw [List.nodup_flatMap]
  constructor
  · intro mask _
    rw [List.nodup_flatMap]
    constructor
    · intro x _
      apply List.Nodup.map ?_ (List.Nodup.filter _ nodup_intRange)
      intro y1 y2 h
      simpa only [kgroup.mk.injEq, ivec2.mk.injEq, true_and, and_true] using h
    · refine List.Pairwise.imp ?_ nodup_intRange
      intro x1 x2 hne g hg1 hg2
      simp only [List.mem_map, List.mem_filter] at hg1 hg2
      rcases hg1 with ⟨y1, _, rfl⟩
      rcases hg2 with ⟨y2, _, heq⟩
      apply hne
      have h2 := (kgroup.mk.injEq _ _ _ _).mp heq
      exact (((ivec2.mk.injEq _ _ _ _).mp h2.1).1).symm
  · have hpat : patterns.Nodup := by decide
    refine List.Pairwise.imp ?_ hpat
    intro m1 m2 hne g hg1 hg2
    apply hne
    simp only [List.mem_flatMap, List.mem_map, List.mem_filter] at hg1 hg2
    rcases hg1 with ⟨x1, _, y1, _, rfl⟩
    rcases hg2 with ⟨x2, _, y2, _, heq⟩
    exact (((kgroup.mk.injEq _ _ _ _).mp heq).2).symm

lemma exists_max_cover (l : List kgroup) (Q : kgroup → Prop)
    (hex : ∃ b0 ∈ l, Q b0) :
    ∃ b ∈ l, Q b ∧ ∀ c ∈ l, Q c →
      c.size.x + c.size.y ≤ b.size.x + b.size.y := by
  induction l with
  | nil =>
    rcases hex with ⟨b0, hb0, _⟩
    cases hb0
  | cons a t ih =>
    by_cases hat : ∃ c0 ∈ t, Q c0
    · rcases ih hat with ⟨bt, hbt, hbtQ, hbtmax⟩
      by_cases ha : Q a ∧ bt.size.x + bt.size.y ≤ a.size.x + a.size.y
      · refine ⟨a, List.mem_cons_self a t, ha.1, ?_⟩
        intro c hc hcQ
        rcases List.mem_cons.mp hc with rfl | hct
        · omega
        · have := hbtmax c hct hcQ
          omega
      · refine ⟨bt, List.mem_cons_of_mem a hbt, hbtQ, ?_⟩
        intro c hc hcQ
        rcases List.mem_cons.mp hc with rfl | hct
        · rcases not_and_or.mp ha with h | h
          · exact absurd hcQ h
          · omega
        · exact hbtmax c hct hcQ
    · rcases hex with ⟨b0, hb0, hQ⟩
      have hb0a : b0 = a := by
        rcases List.mem_cons.mp hb0 with h | h
        · exact h
        · exact absurd ⟨b0, h, hQ⟩ hat
      subst hb0a
      refine ⟨b0, List.mem_cons_self b0 t, hQ, ?_⟩
      intro c hc hcQ
      rcases List.mem_cons.mp hc with rfl | hct
      · omega
      · exact absurd ⟨c, hct, hcQ⟩ hat

/-- Every in-bounds cell with value `v` is still covered after the containment
pass: a group of maximal size covering it survives pass 1. -/
lemma pass1_covers {m : kmap} {v : Bool} {x y : Int}
    (hv : m.value_for x y = some v)
    (hx0 : 0 ≤ x) (hx1 : x < (m.size_x : Int))
    (hy0 : 0 ≤ y) (hy1 : y < (m.size_y : Int)) :
    ∃ b ∈ pass1 (m.get_all_groups v), (⟨x, y⟩ : ivec2) ∈ b.to_points := by
  have hnd : (m.get_all_groups v).Nodup := nodup_get_all_groups m v
  have hs : (⟨⟨x, y⟩, ⟨1, 1⟩⟩ : kgroup) ∈ m.get_all_groups v := by
    rw [mem_get_all_groups]
    refine ⟨?_, ?_, ?_, ?_, ?_, ?_⟩
    · show (⟨1, 1⟩ : ivec2) ∈ patterns
      decide
    · show (0 : Int) ≤ x
      omega
    · show x + (1 : Int) ≤ (m.size_x : Int)
      omega
    · show (0 : Int) ≤ y
      omega
    · show y + (1 : Int) ≤ (m.size_y : Int)
      omega
    · rw [check_group_eq_true_iff]
      intro p hp w hw
      have hp' : x ≤ p.x ∧ p.x < x + 1 ∧ y ≤ p.y ∧ p.y < y + 1 :=
        mem_to_points.mp hp
      have hpxy : p = ⟨x, y⟩ := by
        cases p
        simp only [ivec2.mk.injEq]
        dsimp only at hp'
        omega
      subst hpxy
      dsimp only at hw
      rw [hv] at hw
      exact (Option.some_inj.mp hw).symm
  have hcov : (⟨x, y⟩ : ivec2) ∈ (⟨⟨x, y⟩, ⟨1, 1⟩⟩ : kgroup).to_points := by
    rw [mem_to_points]
    refine ⟨?_, ?_, ?_, ?_⟩
    · show x ≤ x
      omega
    · show x < x + 1
      omega
    · show y ≤ y
      omega
    · show y < y + 1
      omega
  obtain ⟨b, hb, hbQ, hmax⟩ :=
    exists_max_cover (m.get_all_groups v)
      (fun g => (⟨x, y⟩ : ivec2) ∈ g.to_points) ⟨_, hs, hcov⟩
  refine ⟨b, ?_, hbQ⟩
  rw [mem_pass1]
  obtain ⟨i, hi, hgi⟩ := List.mem_iff_getElem.mp hb
  refine ⟨i, hi, by rw [List.getD_eq_getElem _ _ hi, hgi], ?_⟩
  intro j hj hji
  rw [List.getD_eq_getElem _ _ hi, List.getD_eq_getElem _ _ hj, hgi]
  cases hin : b.is_in (m.get_all_groups v)[j] with
  | false => rfl
  | true =>
    exfalso
    have hcmem : (m.get_all_groups v)[j] ∈ m.get_all_groups v := List.getElem_mem hj
    have hbc : b ≠ (m.get_all_groups v)[j] := by
      intro he
      apply hji
      exact ((List.Nodup.getElem_inj_iff hnd).mp (hgi.trans he)).symm
    have hcQ := to_points_mono hin hbQ
    have hlt := strict_measure_of_is_in hin hbc
    have hle := hmax _ hcmem hcQ
    omega

end karnaugh

/-! ### Lemmas about the sorted association lists modelling `std::map` -/

namespace karnaugh

/-- The invariant of `std::map`: keys strictly sorted. -/
def sortedKeys {α : Type} (m : List (Char × α)) : Prop :=
  (m.map Prod.fst).Pairwise (· < ·)

lemma mapFind?_nil {α : Type} {c : Char} : mapFind? ([] : List (Char × α)) c = none := rfl

lemma mapFind?_cons {α : Type} {k' : Char} {v' : α} {rest : List (Char × α)} {c : Char} :
    mapFind? ((k', v') :: rest) c = if k' = c then some v' else mapFind? rest c := by
  unfold mapFind?
  rw [List.find?_cons]
  by_cases h : k' = c
  · simp [h]
  · rw [if_neg h]
    have hb : ((k', v').1 == c) = false := beq_eq_false_iff_ne.mpr h
    rw [hb]

lemma mapFind?_isSome_iff {α : Type} {m : List (Char × α)} {c : Char} :
    (mapFind? m c).isSome ↔ c ∈ m.map Prod.fst := by
  induction m with
  | nil => simp [mapFind?]
  | cons p rest ih =>
    obtain ⟨k', v'⟩ := p
    rw [mapFind?_cons]
    by_cases h : k' = c
    · subst h; simp
    · rw [if_neg h]
      simp only [List.map_cons, List.mem_cons]
      rw [ih]
      constructor
      · intro hm; exact Or.inr hm
      · intro hm
        rcases hm with he | hm
        · exact absurd he.symm h
        · exact hm

lemma mapFind?_eq_none_of_not_mem {α : Type} {m : List (Char × α)} {c : Char}
    (h : c ∉ m.map Prod.fst) : mapFind? m c = none := by
  cases hf : mapFind? m c with
  | none => rfl
  | some x => exact absurd (mapFind?_isSome_iff.mp (by rw [hf]; rfl)) h

lemma keys_mapEmplace {α : Type} {m : List (Char × α)} {k c : Char} {v : α} :
    c ∈ (mapEmplace m k v).map Prod.fst ↔ c = k ∨ c ∈ m.map Prod.fst := by
  induction m with
  | nil => simp [mapEmplace]
  | cons p rest ih =>
    obtain ⟨k', v'⟩ := p
    unfold mapEmplace
    by_cases h1 : k < k'
    · rw [if_pos h1]
      simp only [List.map_cons, List.mem_cons]
    · rw [if_neg h1]
      by_cases h2 : k = k'
      · rw [if_pos h2]
        subst h2
        simp only [List.map_cons, List.mem_cons]
        tauto
      · rw [if_neg h2]
        simp only [List.map_cons, List.mem_cons, ih]
        tauto

lemma sortedKeys_mapEmplace {α : Type} {m : List (Char × α)} {k : Char} {v : α}
    (hs : sortedKeys m) : sortedKeys (mapEmplace m k v) := by
  induction m with
  | nil => simp [mapEmplace, sortedKeys]
  | cons p rest ih =>
    obtain ⟨k', v'⟩ := p
    unfold sortedKeys at hs ⊢
    rw [List.map_cons, List.pairwise_cons] at hs
    obtain ⟨hlt, hrest⟩ := hs
    unfold mapEmplace
    by_cases h1 : k < k'
    · rw [if_pos h1]
      simp only [List.map_cons, List.pairwise_cons, List.mem_cons]
      refine ⟨?_, ?_, hrest⟩
      · rintro a (rfl | ha)
        · exact h1
        · exact lt_trans h1 (hlt a ha)
      · exact hlt
    · rw [if_neg h1]
      by_cases h2 : k = k'
      · rw [if_pos h2]
        rw [List.map_cons, List.pairwise_cons]
        exact ⟨hlt, hrest⟩
      · rw [if_neg h2]
        have h3 : k' < k := by
          rcases lt_trichotomy k k' with h | h | h
          · exact absurd h h1
          · exact absurd h h2
          · exact h
        rw [List.map_cons, List.pairwise_cons]
        refine ⟨?_, ih hrest⟩
        intro a ha
        rcases keys_mapEmplace.mp ha with rfl | ha'
        · exact h3
        · exact hlt a ha'

lemma mapFind?_mapEmplace {α : Type} {m : List (Char × α)} {k c : Char} {v : α}
    (hs : sortedKeys m) :
    mapFind? (mapEmplace m k v) c =
      match mapFind? m c with
      | some x => some x
      | none => if c = k then some v else none := by
  induction m with
  | nil =>
    rw [show mapEmplace ([] : List (Char × α)) k v = [(k, v)] from rfl, mapFind?_cons]
    rw [mapFind?_nil]
    by_cases h : k = c
    · rw [if_pos h]
      subst h
      show some v = if k = k then some v else none
      rw [if_pos rfl]
    · rw [if_neg h]
      show none = if c = k then some v else none
      rw [if_neg (fun he : c = k => h he.symm)]
  | cons p rest ih =>
    obtain ⟨k', v'⟩ := p
    have hs' : sortedKeys rest := by
      unfold sortedKeys at hs ⊢
      rw [List.map_cons, List.pairwise_cons] at hs
      exact hs.2
    have hlt : ∀ a ∈ rest.map Prod.fst, k' < a := by
      unfold sortedKeys at hs
      rw [List.map_cons, List.pairwise_cons] at hs
      exact hs.1
    by_cases h1 : k < k'
    · have he : mapEmplace ((k', v') :: rest) k v = (k, v) :: (k', v') :: rest := by
        unfold mapEmplace
        rw [if_pos h1]
      rw [he, mapFind?_cons]
      by_cases h2 : k = c
      · subst h2
        rw [if_pos rfl]
        have hnm : k ∉ ((k', v') :: rest).map Prod.fst := by
          simp only [List.map_cons, List.mem_cons]
          rintro (rfl | hm)
          · exact absurd h1 (lt_irrefl _)
          · exact absurd (lt_trans h1 (hlt k hm)) (lt_irrefl k)
        rw [mapFind?_eq_none_of_not_mem hnm]
        show some v = if k = k then some v else none
        rw [if_pos rfl]
      · rw [if_neg h2]
        cases hf : mapFind? ((k', v') :: rest) c with
        | some x => rfl
        | none =>
          show none = if c = k then some v else none
          rw [if_neg (fun hce : c = k => h2 hce.symm)]
    · by_cases h2 : k = k'
      · have he : mapEmplace ((k', v') :: rest) k v = (k', v') :: rest := by
          unfold mapEmplace
          rw [if_neg h1, if_pos h2]
        rw [he]
        cases hf : mapFind? ((k', v') :: rest) c with
        | some x => rfl
        | none =>
          show none = if c = k then some v else none
          have hck : c ≠ k := by
            intro hck
            subst hck
            subst h2
            rw [mapFind?_cons, if_pos rfl] at hf
            exact Option.noConfusion hf
          rw [if_neg hck]
      · have h3 : k' < k := by
          rcases lt_trichotomy k k' with h | h | h
          · exact absurd h h1
          · exact absurd h h2
          · exact h
        have he : mapEmplace ((k', v') :: rest) k v = (k', v') :: mapEmplace rest k v := by
          simp only [mapEmplace]
          rw [if_neg h1, if_neg h2]
        rw [he, mapFind?_cons]
        by_cases h4 : k' = c
        · rw [if_pos h4]
          have hfc : mapFind? ((k', v') :: rest) c = some v' := by
            rw [mapFind?_cons, if_pos h4]
          rw [hfc]
        · rw [if_neg h4]
          have hfc : mapFind? ((k', v') :: rest) c = mapFind? rest c := by
            rw [mapFind?_cons, if_neg h4]
          rw [hfc]
          exact ih hs'

end karnaugh

/-! ### Folds of `emplace` and `assign` -/

namespace karnaugh

lemma sortedKeys_nil {α : Type} : sortedKeys ([] : List (Char × α)) := List.Pairwise.nil

lemma mapFind?_foldl_emplace {α : Type} (d : α) (l : List Char) (acc : List (Char × α))
    (c : Char) (hs : sortedKeys acc) :
    mapFind? (l.foldl (fun m k => mapEmplace m k d) acc) c =
      match mapFind? acc c with
      | some x => some x
      | none => if c ∈ l then some d else none := by
  induction l generalizing acc with
  | nil =>
    cases hf : mapFind? acc c with
    | some x => rw [List.foldl_nil, hf]
    | none =>
      rw [List.foldl_nil, hf]
      show none = if c ∈ ([] : List Char) then some d else none
      simp
  | cons a rest ih =>
    rw [List.foldl_cons, ih (mapEmplace acc a d) (sortedKeys_mapEmplace hs),
        mapFind?_mapEmplace hs]
    cases hf : mapFind? acc c with
    | some x => rfl
    | none =>
      by_cases hca : c = a
      · simp [List.mem_cons, hca]
      · simp [List.mem_cons, hca]

lemma sortedKeys_foldl_emplace {α : Type} (d : α) (l : List Char) (acc : List (Char × α))
    (hs : sortedKeys acc) :
    sortedKeys (l.foldl (fun m k => mapEmplace m k d) acc) := by
  induction l generalizing acc with
  | nil => exact hs
  | cons a rest ih =>
    rw [List.foldl_cons]
    exact ih _ (sortedKeys_mapEmplace hs)

lemma mapFind?_mapFromKeys {α : Type} (d : α) (l : List Char) (c : Char) :
    mapFind? (mapFromKeys d l) c = if c ∈ l then some d else none := by
  unfold mapFromKeys
  rw [mapFind?_foldl_emplace d l [] c sortedKeys_nil, mapFind?_nil]

lemma sortedKeys_mapFromKeys {α : Type} (d : α) (l : List Char) :
    sortedKeys (mapFromKeys d l) :=
  sortedKeys_foldl_emplace d l [] sortedKeys_nil

lemma keys_mapFromKeys {α : Type} (d : α) (l : List Char) (c : Char) :
    c ∈ (mapFromKeys d l).map Prod.fst ↔ c ∈ l := by
  rw [← mapFind?_isSome_iff, mapFind?_mapFromKeys]
  by_cases h : c ∈ l
  · simp [h]
  · simp [h]

lemma keys_mapAssign {α : Type} (m : List (Char × α)) (k : Char) (v : α) :
    (mapAssign m k v).map Prod.fst = m.map Prod.fst := by
  induction m with
  | nil => rfl
  | cons p rest ih =>
    obtain ⟨k', v'⟩ := p
    unfold mapAssign
    by_cases h : k = k'
    · rw [if_pos h, List.map_cons, List.map_cons, h]
    · rw [if_neg h, List.map_cons, List.map_cons, ih]

lemma sortedKeys_mapAssign {α : Type} {m : List (Char × α)} {k : Char} {v : α}
    (hs : sortedKeys m) : sortedKeys (mapAssign m k v) := by
  unfold sortedKeys
  rw [keys_mapAssign]
  exact hs

lemma mapFind?_mapAssign_self {α : Type} (m : List (Char × α)) (k : Char) (v : α) :
    mapFind? (mapAssign m k v) k = (mapFind? m k).map (fun _ => v) := by
  induction m with
  | nil => rfl
  | cons p rest ih =>
    obtain ⟨k', v'⟩ := p
    unfold mapAssign
    by_cases h : k = k'
    · rw [if_pos h, mapFind?_cons, mapFind?_cons, if_pos rfl, if_pos h.symm]
      rfl
    · rw [if_neg h, mapFind?_cons, mapFind?_cons,
          if_neg (fun he : k' = k => h he.symm), if_neg (fun he : k' = k => h he.symm)]
      exact ih

lemma mapFind?_mapAssign_ne {α : Type} {m : List (Char × α)} {k c : Char} {v : α}
    (hck : c ≠ k) : mapFind? (mapAssign m k v) c = mapFind? m c := by
  induction m with
  | nil => rfl
  | cons p rest ih =>
    obtain ⟨k', v'⟩ := p
    unfold mapAssign
    by_cases h : k = k'
    · rw [if_pos h, mapFind?_cons, mapFind?_cons,
          if_neg (fun he : k = c => hck he.symm),
          if_neg (fun he : k' = c => hck (h.trans he).symm)]
    · rw [if_neg h, mapFind?_cons, mapFind?_cons]
      by_cases h2 : k' = c
      · rw [if_pos h2, if_pos h2]
      · rw [if_neg h2, if_neg h2]
        exact ih

end karnaugh

/-! ### Assign folds, sorted membership, and term rendering helpers -/

namespace karnaugh

lemma mapFind?_foldl_assign_const {α : Type} (f : Char → α) (K : α) (l : List Char)
    (t : List (Char × α)) (c : Char) (hf : ∀ var ∈ l, f var = K) :
    mapFind? (l.foldl (fun acc var => mapAssign acc var (f var)) t) c =
      if c ∈ l then (mapFind? t c).map (fun _ => K) else mapFind? t c := by
  induction l generalizing t with
  | nil => simp
  | cons a rest ih =>
    rw [List.foldl_cons,
        ih (mapAssign t a (f a)) (fun var hv => hf var (List.mem_cons_of_mem a hv))]
    by_cases hca : c = a
    · subst hca
      rw [hf c (List.mem_cons_self c rest), mapFind?_mapAssign_self]
      by_cases hcr : c ∈ rest
      · rw [if_pos hcr, if_pos (List.mem_cons_self c rest)]
        cases mapFind? t c <;> rfl
      · rw [if_neg hcr, if_pos (List.mem_cons_self c rest)]
    · rw [mapFind?_mapAssign_ne hca]
      have hmm : (c ∈ a :: rest) ↔ c ∈ rest := by simp [List.mem_cons, hca]
      by_cases hcr : c ∈ rest
      · rw [if_pos hcr, if_pos (hmm.mpr hcr)]
      · rw [if_neg hcr, if_neg (fun hcm => hcr (hmm.mp hcm))]

lemma keys_foldl_assign {α : Type} (f : Char → α) (l : List Char) (t : List (Char × α)) :
    (l.foldl (fun acc var => mapAssign acc var (f var)) t).map Prod.fst = t.map Prod.fst := by
  induction l generalizing t with
  | nil => rfl
  | cons a rest ih =>
    rw [List.foldl_cons, ih (mapAssign t a (f a)), keys_mapAssign]

lemma assign_row_untouched (m : kmap) (vars : List Int) (t : var_map_t) (c : Char)
    (h : ∀ i, i < vars.length → m.unordered_variables[i]? ≠ some c) :
    mapFind? (assign_row m t vars) c = mapFind? t c := by
  unfold assign_row
  have hgen : ∀ (is : List Nat) (t : var_map_t),
      (∀ i ∈ is, m.unordered_variables[i]? ≠ some c) →
      mapFind? (is.foldl (fun t i =>
        match m.unordered_variables[i]? with
        | some k => mapAssign t k (decide (vars.getD i 0 ≠ 0))
        | none => t) t) c = mapFind? t c := by
    intro is
    induction is with
    | nil => intro t _; rfl
    | cons i rest ih =>
      intro t hall
      rw [List.foldl_cons, ih _ (fun j hj => hall j (List.mem_cons_of_mem i hj))]
      cases hu : m.unordered_variables[i]? with
      | none => rfl
      | some k =>
        have hkc : c ≠ k :=
          fun he => hall i (List.mem_cons_self i rest) (hu.trans (congrArg some he.symm))
        exact mapFind?_mapAssign_ne hkc
  exact hgen (List.range vars.length) t (fun i hi => h i (List.mem_range.mp hi))

lemma mapFind?_of_mem_sorted {α : Type} {t : List (Char × α)} {p : Char × α}
    (hs : sortedKeys t) (hp : p ∈ t) : mapFind? t p.1 = some p.2 := by
  induction t with
  | nil => cases hp
  | cons q rest ih =>
    obtain ⟨k', v'⟩ := q
    unfold sortedKeys at hs
    rw [List.map_cons, List.pairwise_cons] at hs
    obtain ⟨hlt, hrest⟩ := hs
    rcases List.mem_cons.mp hp with rfl | hp'
    · rw [mapFind?_cons, if_pos rfl]
    · have hk : k' ≠ p.1 := by
        intro he
        have := hlt p.1 (List.mem_map_of_mem Prod.fst hp')
        rw [he] at this
        exact lt_irrefl _ this
      rw [mapFind?_cons, if_neg hk]
      exact ih hrest hp'

lemma render_term_eq_empty {v : Bool} {t : List (Char × k_var_result)}
    (h : ∀ p ∈ t, p.2 = k_var_result.k_vnull) : render_term v t = "" := by
  unfold render_term
  have haux : ∀ (l : List (Char × k_var_result)) (acc : String),
      (∀ p ∈ l, p.2 = k_var_result.k_vnull) →
      l.foldl (fun ssn p =>
        let ssn := if ssn ≠ "" ∧ p.2 ≠ k_var_result.k_vnull
          then ssn ++ " " ++ (if !v then "+" else "x") ++ " " else ssn
        let ssn := if p.2 = k_var_result.k_vfalse then ssn ++ "!" else ssn
        if p.2 ≠ k_var_result.k_vnull then ssn ++ p.1.toString else ssn) acc = acc := by
    intro l
    induction l with
    | nil => intro acc _; rfl
    | cons p rest ih =>
      intro acc hall
      rw [List.foldl_cons]
      have hp := hall p (List.mem_cons_self p rest)
      simp only [hp]
      simp only [ne_eq, not_true_eq_false, and_false, if_false, reduceCtorEq, ite_self]
      exact ih acc (fun q hq => hall q (List.mem_cons_of_mem p hq))
  exact haux t "" h

end karnaugh

/-! ### Concrete example maps -/

namespace karnaugh

/-- The constant-true two-variable truth table of §8 of the spec:
variables `A B`, rows `(0,0,1) (0,1,1) (1,0,1) (1,1,1)`. -/
def m8 : kmap :=
  (kmap.construct true ['A', 'B']
    [[0, 0, 1], [0, 1, 1], [1, 0, 1], [1, 1, 1]]).getD kmap.empty

/-- A complete 3-variable truth table for `f = Σm(0,1,2,5,6,7)` (variables
`A B C`): its prime implicants form a redundancy cycle. -/
def m3 : kmap :=
  (kmap.construct true ['A', 'B', 'C']
    [[0, 0, 0, 1], [0, 0, 1, 1], [0, 1, 0, 1], [0, 1, 1, 0],
     [1, 0, 0, 0], [1, 0, 1, 1], [1, 1, 0, 1], [1, 1, 1, 1]]).getD kmap.empty

lemma getLast?_ne_none {l : List Int} (h : l ≠ []) : ∃ a, l.getLast? = some a := by
  induction l with
  | nil => exact absurd rfl h
  | cons a t ih =>
    cases t with
    | nil => exact ⟨a, rfl⟩
    | cons b t' =>
      rcases ih (by simp) with ⟨c, hc⟩
      exact ⟨c, by rw [List.getLast?_cons_cons]; exact hc⟩

end karnaugh

/-! ### Claim theorems -/

namespace karnaugh

/-- C1 (counterexample): for a non-existent input path the constructor yields
the default-constructed map, but `size()` is `1` (not `0`), `get_formula`
returns one (empty) term (not an empty list), and `get_formula_string`
returns `"()"` (not `""`): the enumeration accepts the off-grid 1×1 shape at
the origin of the variable-less 1×1 grid. -/
theorem C1_counterexample :
    kmap.construct false [] [] = some kmap.empty ∧
    kmap.size kmap.empty = 1 ∧
    kmap.get_formula kmap.empty true = [[]] ∧
    kmap.get_formula_string kmap.empty true = "()" ∧
    ¬(kmap.size kmap.empty = 0 ∧
      kmap.get_formula kmap.empty true = [] ∧
      kmap.get_formula_string kmap.empty true = "") := by
  refine ⟨rfl, rfl, rfl, rfl, ?_⟩
  intro h
  exact absurd h.1 (by decide)

/-- C1 (amended): if the input file path does not exist, construction yields
the default map without failing; for it `size() = 1` (both axes have `2^0 = 1`
cells), `get_formula(v)` returns a single term that mentions no variable, and
`get_formula_string(v)` returns `"()"`, for either target value. -/
theorem C1_amended (varLine : List Char) (rows : List (List Int)) (v : Bool) :
    kmap.construct false varLine rows = some kmap.empty ∧
    kmap.size kmap.empty = 1 ∧
    kmap.get_formula kmap.empty v = [[]] ∧
    kmap.get_formula_string kmap.empty v = "()" := by
  refine ⟨rfl, rfl, ?_, ?_⟩ <;> cases v <;> rfl

/-- C2: every group returned by `get_all_groups` for value `v` has value
exactly `v` at every covered coordinate holding a cell; and `check_group`
accepts a group iff all covered cells present in the map have value `v`, so
missing cells never cause rejection. -/
theorem C2_uniformity (m : kmap) (v : Bool) :
    (∀ g ∈ m.get_all_groups v, ∀ p ∈ g.to_points,
        ∀ w, m.value_for p.x p.y = some w → w = v) ∧
    (∀ g : kgroup, m.check_group g v = true ↔
        ∀ p ∈ g.to_points, ∀ w, m.value_for p.x p.y = some w → w = v) := by
  constructor
  · intro g hg
    exact check_group_eq_true_iff.mp (mem_get_all_groups.mp hg).2.2.2.2.2
  · intro g
    exact check_group_eq_true_iff

/-- Witness for C2 at the concrete constant-true map `m8`, its 2×2 group and
the cell (0,0). -/
theorem C2_uniformity_witness : true = true :=
  (C2_uniformity m8 true).1 ⟨⟨0, 0⟩, ⟨2, 2⟩⟩ (by decide) ⟨0, 0⟩ (by decide)
    true (by decide)

/-- C3 (counterexample): in the map `m3` (complete truth table of
`Σm(0,1,2,5,6,7)`) the cell (1,0) has output `true`, yet no group in the
final filtered set covers it: the second reduction pass drops every group of
a redundancy cycle, so the filtered cover is incomplete. -/
theorem C3_counterexample :
    m3.value_for 1 0 = some true ∧
    ∀ g ∈ m3.get_filtered_groups true, (⟨1, 0⟩ : ivec2) ∉ g.to_points := by
  refine ⟨rfl, ?_⟩
  decide

/-- C3 (amended): every in-bounds cell with output `v` is covered by the union
of the *containment-pass* survivors (`pass1` of `get_all_groups`); the final
filtered set (after the coverage-uniqueness pass) can fail to cover cells
whose groups are cyclically redundant. -/
theorem C3_amended (m : kmap) (v : Bool) (x y : Int)
    (hv : m.value_for x y = some v)
    (hx0 : 0 ≤ x) (hx1 : x < (m.size_x : Int))
    (hy0 : 0 ≤ y) (hy1 : y < (m.size_y : Int)) :
    ∃ b ∈ pass1 (m.get_all_groups v), (⟨x, y⟩ : ivec2) ∈ b.to_points :=
  pass1_covers hv hx0 hx1 hy0 hy1

/-- Witness for C3 (amended) at the concrete map `m8` and its cell (0,0). -/
theorem C3_amended_witness :
    ∃ b ∈ pass1 (m8.get_all_groups true), (⟨0, 0⟩ : ivec2) ∈ b.to_points :=
  C3_amended m8 true 0 0 (by decide) (by decide) (by decide) (by decide) (by decide)

/-- C4: no two groups at distinct positions of the `get_filtered_groups`
output contain one another; and every containment-pass survivor has no
distinct enumerated container, i.e. pass 1 drops every enumerated group lying
inside a different enumerated group. -/
theorem C4_containment_free (m : kmap) (v : Bool) :
    (m.get_filtered_groups v).Pairwise
      (fun a b => a.is_in b = false ∧ b.is_in a = false) ∧
    (∀ g ∈ pass1 (m.get_all_groups v),
      g ∈ m.get_all_groups v ∧
      ∀ b ∈ m.get_all_groups v, g.is_in b = true → b = g) := by
  constructor
  · unfold kmap.get_filtered_groups
    exact filtered_pairwise (m.get_all_groups v)
  · intro g hg
    exact pass1_survivor hg

/-- Witness for C4 at the concrete map `m8`: its surviving 2×2 group is an
enumerated group. -/
theorem C4_containment_free_witness :
    (⟨⟨0, 0⟩, ⟨2, 2⟩⟩ : kgroup) ∈ m8.get_all_groups true :=
  ((C4_containment_free m8 true).2 ⟨⟨0, 0⟩, ⟨2, 2⟩⟩ (by decide)).1

/-- C5: a containment-pass survivor is in the output of the second reduction
pass iff at least one of its covered points lies in no *other*
containment-pass survivor. -/
theorem C5_pass2_characterization (m : kmap) (v : Bool) (g : kgroup) :
    g ∈ m.get_filtered_groups v ↔
      g ∈ pass1 (m.get_all_groups v) ∧
      ∃ p ∈ g.to_points,
        ∀ b ∈ pass1 (m.get_all_groups v), b ≠ g → p ∉ b.to_points := by
  have hpw := pass1_pairwise (m.get_all_groups v)
  have hnd : (pass1 (m.get_all_groups v)).Nodup := by
    refine hpw.imp ?_
    intro a b hab he
    rw [he] at hab
    rw [is_in_refl b] at hab
    exact Bool.noConfusion hab.1
  unfold kmap.get_filtered_groups
  rw [mem_pass2]
  constructor
  · rintro ⟨i, hi, hgi, p, hp, hall⟩
    constructor
    · rw [List.getD_eq_getElem _ _ hi] at hgi
      exact hgi ▸ List.getElem_mem hi
    · refine ⟨p, hp, ?_⟩
      intro b hb hbg
      rcases List.mem_iff_getElem.mp hb with ⟨j, hj, rfl⟩
      have hji : j ≠ i := by
        intro he
        subst he
        rw [List.getD_eq_getElem _ _ hj] at hgi
        exact hbg hgi
      have := hall j hj hji
      rw [List.getD_eq_getElem _ _ hj] at this
      exact this
  · rintro ⟨hgt, p, hp, hall⟩
    rcases List.mem_iff_getElem.mp hgt with ⟨i, hi, hgi⟩
    refine ⟨i, hi, by rw [List.getD_eq_getElem _ _ hi, hgi], p, hp, ?_⟩
    intro j hj hji
    rw [List.getD_eq_getElem _ _ hj]
    apply hall _ (List.getElem_mem hj)
    intro he
    apply hji
    exact (List.Nodup.getElem_inj_iff hnd).mp (he.trans hgi.symm)

/-- C6: every enumerated group's shape is one of the nine fixed patterns and
its rectangle lies inside `[0, size_x) × [0, size_y)`. -/
theorem C6_shape_closure (m : kmap) (v : Bool) :
    ∀ g ∈ m.get_all_groups v,
      g.size ∈ patterns ∧
      0 ≤ g.start.x ∧ g.start.x + g.size.x ≤ (m.size_x : Int) ∧
      0 ≤ g.start.y ∧ g.start.y + g.size.y ≤ (m.size_y : Int) := by
  intro g hg
  have h := mem_get_all_groups.mp hg
  exact ⟨h.1, h.2.1, h.2.2.1, h.2.2.2.1, h.2.2.2.2.1⟩

/-- Witness for C6 at the concrete map `m8` and its 2×2 group. -/
theorem C6_shape_closure_witness :
    (⟨⟨0, 0⟩, ⟨2, 2⟩⟩ : kgroup).size ∈ patterns ∧
    0 ≤ (⟨⟨0, 0⟩, ⟨2, 2⟩⟩ : kgroup).start.x ∧
    (⟨⟨0, 0⟩, ⟨2, 2⟩⟩ : kgroup).start.x + (⟨⟨0, 0⟩, ⟨2, 2⟩⟩ : kgroup).size.x ≤ (m8.size_x : Int) ∧
    0 ≤ (⟨⟨0, 0⟩, ⟨2, 2⟩⟩ : kgroup).start.y ∧
    (⟨⟨0, 0⟩, ⟨2, 2⟩⟩ : kgroup).start.y + (⟨⟨0, 0⟩, ⟨2, 2⟩⟩ : kgroup).size.y ≤ (m8.size_y : Int) :=
  C6_shape_closure m8 true ⟨⟨0, 0⟩, ⟨2, 2⟩⟩ (by decide)

/-- C7 (counterexample): a data row with no tokens at all does *not* produce a
cell: `load_values` hits `result.back()` on an empty vector (undefined
behaviour in the C++, modelled as failure), so the claim fails for empty
rows. -/
theorem C7_counterexample : m8.load_values [] = none := rfl

/-- C7 (amended): for every data row with *at least one token* — however few,
however mismatched with the variable ordering — loading never aborts: the row
produces a cell, and every axis variable not resolved from the row keeps its
default value `false`. -/
theorem C7_amended (m : kmap) (tokens : List Int) (h : tokens ≠ []) :
    (∃ cell, m.load_values tokens = some cell) ∧
    (∀ c, (∀ i, i < tokens.length → m.unordered_variables[i]? ≠ some c) →
      (c ∈ m.variables_pair.1 →
        mapFind? (m.process m.variables_pair.1 tokens).1 c = some false) ∧
      (c ∈ m.variables_pair.2 →
        mapFind? (m.process m.variables_pair.2 tokens).1 c = some false)) := by
  constructor
  · obtain ⟨last, hl⟩ := getLast?_ne_none h
    unfold kmap.load_values
    rw [hl]
    exact ⟨_, rfl⟩
  · intro c hc
    constructor <;> intro hmem
    · show mapFind? (assign_row m (mapFromKeys false m.variables_pair.1) tokens) c
          = some false
      rw [assign_row_untouched m tokens _ c hc, mapFind?_mapFromKeys, if_pos hmem]
    · show mapFind? (assign_row m (mapFromKeys false m.variables_pair.2) tokens) c
          = some false
      rw [assign_row_untouched m tokens _ c hc, mapFind?_mapFromKeys, if_pos hmem]

/-- Witness for C7 (amended): a one-token row on a map whose horizontal axis
variable `Z` is never resolved from the row. -/
theorem C7_amended_witness :
    mapFind? ((⟨['A'], (['Z'], []), []⟩ : kmap).process ['Z'] [1]).1 'Z' = some false :=
  ((C7_amended ⟨['A'], (['Z'], []), []⟩ [1] (by decide)).2 'Z' (by decide)).1 (by decide)

/-- C8: on the constant-true two-variable table, the filtered group set for
`v = true` is the single 2×2 group covering the whole map, its term marks both
variables don't-appear, and the formula string is `"()"`. -/
theorem C8_constant_true :
    kmap.construct true ['A', 'B'] [[0, 0, 1], [0, 1, 1], [1, 0, 1], [1, 1, 1]]
      = some m8 ∧
    m8.get_filtered_groups true = [⟨⟨0, 0⟩, ⟨2, 2⟩⟩] ∧
    m8.get_formula true = [[('A', k_var_result.k_vnull), ('B', k_var_result.k_vnull)]] ∧
    m8.get_formula_string true = "()" :=
  ⟨rfl, rfl, rfl, rfl⟩

/-- C9: for every declared variable line, both axis variable lists are sorted
in ascending character order, and membership in each list is exactly
membership in the corresponding half of the declared sequence (first
`⌈s/2⌉` names horizontal, the rest vertical). -/
theorem C9_sorted_axes (tvars : List Char) :
    (kmap.load_variables tvars).1.Pairwise (· < ·) ∧
    (kmap.load_variables tvars).2.Pairwise (· < ·) ∧
    (∀ c, c ∈ (kmap.load_variables tvars).1 ↔
      c ∈ tvars.take
        (if tvars.length % 2 == 0 then tvars.length / 2 else tvars.length / 2 + 1)) ∧
    (∀ c, c ∈ (kmap.load_variables tvars).2 ↔
      c ∈ tvars.drop
        (if tvars.length % 2 == 0 then tvars.length / 2 else tvars.length / 2 + 1)) := by
  refine ⟨?_, ?_, ?_, ?_⟩
  · exact sortedKeys_mapFromKeys false _
  · exact sortedKeys_mapFromKeys false _
  · intro c
    exact keys_mapFromKeys false _ c
  · intro c
    exact keys_mapFromKeys false _ c

/-- C10: a surviving group covering no cell of the map gets a term assigning
don't-appear (`k_vnull`) to every declared variable, and that term renders as
the empty parenthesised term `"()"` inside the formula string. -/
theorem C10_no_cells_term (m : kmap) (v : Bool) (g : kgroup)
    (hg : g ∈ m.get_filtered_groups v)
    (hc : m.coords_from_kgroup g = []) :
    m.term_for_group g ∈ m.get_formula v ∧
    (∀ c ∈ m.unordered_variables,
      mapFind? (m.term_for_group g) c = some k_var_result.k_vnull) ∧
    render_term v (m.term_for_group g) = "" ∧
    (∀ p ∈ m.term_for_group g, p.2 = k_var_result.k_vnull) := by
  have hterm : m.term_for_group g =
      m.unordered_variables.foldl
        (fun acc var => mapAssign acc var (classify_var m [] var))
        (mapFromKeys k_var_result.k_vtrue m.unordered_variables) := by
    unfold kmap.term_for_group
    rw [hc]
  have hnull : ∀ var ∈ m.unordered_variables,
      classify_var m [] var = k_var_result.k_vnull := fun _ _ => rfl
  have hfind : ∀ c ∈ m.unordered_variables,
      mapFind? (m.term_for_group g) c = some k_var_result.k_vnull := by
    intro c hcm
    rw [hterm, mapFind?_foldl_assign_const _ _ _ _ _ hnull, if_pos hcm,
        mapFind?_mapFromKeys, if_pos hcm]
    rfl
  have hsorted : sortedKeys (m.term_for_group g) := by
    rw [hterm]
    unfold sortedKeys
    rw [keys_foldl_assign]
    exact sortedKeys_mapFromKeys _ _
  have hallnull : ∀ p ∈ m.term_for_group g, p.2 = k_var_result.k_vnull := by
    intro p hp
    have h1 : mapFind? (m.term_for_group g) p.1 = some p.2 :=
      mapFind?_of_mem_sorted hsorted hp
    have h2 : p.1 ∈ m.unordered_variables := by
      have hk : p.1 ∈ (m.term_for_group g).map Prod.fst :=
        List.mem_map_of_mem Prod.fst hp
      rw [hterm, keys_foldl_assign] at hk
      exact (keys_mapFromKeys _ _ _).mp hk
    have h3 := hfind p.1 h2
    rw [h1] at h3
    exact Option.some_inj.mp h3
  refine ⟨?_, hfind, render_term_eq_empty hallnull, hallnull⟩
  unfold kmap.get_formula
  exact List.mem_map_of_mem _ hg

/-- Witness for C10: the empty map's sole surviving group covers no cell. -/
theorem C10_no_cells_term_witness :
    render_term true (kmap.empty.term_for_group ⟨⟨0, 0⟩, ⟨1, 1⟩⟩) = "" :=
  (C10_no_cells_term kmap.empty true ⟨⟨0, 0⟩, ⟨1, 1⟩⟩ (by decide) rfl).2.2.1

end karnaugh
